import Mathlib

/-!
Signalling and peer-session lifecycle of the voice-chat client.

A shallow embedding of the signalling core of `src/app.js`: the global
tables `window.peerConnections` and `window.connectedPeers`, the functions
`createPeerConnection`, `sendSignal`, `handleOffer`, `handleAnswer`,
`handleCandidate`, `disconnectPeer`, `leaveRoom`, the callbacks installed by
`createPeerConnection`, and the snapshot callback of `listenForSignals`.

Conventions of the embedding.

* Every `RTCPeerConnection` ever constructed lives in a heap
  (`State.connections`); a handle is its index.  The JavaScript `Map` holds
  object references, here handles.
* The browser objects are not part of the repository.  What a connection
  answers to a call is a parameter (`MediaTransport`); the record of a
  connection keeps what the calls of the program did to it.
* Each handler is run to completion before the next event is taken: every
  `await` is resolved in place, with the outcome the transport gives.
* Calls made on connections are appended to `State.calls`, documents passed
  to `setDoc` to `State.signals`.  A rejected `setDoc` is caught inside
  `sendSignal` and changes nothing else, so the log of `setDoc` calls is all
  that is kept of it.
* Rendering (`updateUsersGrid`, `showToast`, the audio elements) reads the
  tables and never writes them; it is left out.
-/

namespace VoiceChat

/-- The constant `ROOM_ID` of app.js (line 24). -/
def ROOM_ID : String := "general"

/-- The `type` of an `RTCSessionDescription` built by the handlers. -/
inductive SdpType where
  | offer
  | answer
deriving DecidableEq, Repr

/-- The dictionary given to `new RTCSessionDescription`: its type and its
`sdp`, `none` when the payload had no `sdp` property. -/
structure SessionDescription where
  type : SdpType
  sdp : Option String
deriving DecidableEq, Repr

/-- The values of `RTCPeerConnection.connectionState`. -/
inductive ConnectionState where
  | new
  | connecting
  | connected
  | disconnected
  | failed
  | closed
deriving DecidableEq, Repr

/-- The record of one `RTCPeerConnection` object.  `peerId` is the argument
of `createPeerConnection` captured by the three callbacks. -/
structure Connection where
  peerId : String
  tracks : List String
  closed : Bool
  connectionState : ConnectionState
  remoteDescription : Option SessionDescription
  localDescription : Option SessionDescription
  candidates : List (Option String)
deriving DecidableEq, Repr

/-- What the browser answers to the calls of the handlers.  A `false` (or
`none`) is a rejected promise or a thrown exception. -/
structure MediaTransport where
  setRemoteDescription : Connection → SessionDescription → Bool
  createAnswer : Connection → Option String
  setLocalDescription : Connection → SessionDescription → Bool
  newIceCandidate : Option String → Bool
  addIceCandidate : Connection → Option String → Bool

/-- A call made by the program on a connection, by handle. -/
inductive Call where
  | construct (h : Nat) (peerId : String)
  | addTrack (h : Nat) (track : String)
  | setRemoteDescription (h : Nat) (d : SessionDescription)
  | createAnswer (h : Nat)
  | setLocalDescription (h : Nat) (d : SessionDescription)
  | addIceCandidate (h : Nat) (candidate : Option String)
  | close (h : Nat)
deriving DecidableEq, Repr

/-- The handle a call is made on. -/
def Call.handle : Call → Nat
  | .construct h _ => h
  | .addTrack h _ => h
  | .setRemoteDescription h _ => h
  | .createAnswer h => h
  | .setLocalDescription h _ => h
  | .addIceCandidate h _ => h
  | .close h => h

/-- Whether a call is `addIceCandidate`. -/
def Call.isAddIceCandidate : Call → Bool
  | .addIceCandidate _ _ => true
  | _ => false

/-- Whether a call is the construction of a connection. -/
def Call.isConstruct : Call → Bool
  | .construct _ _ => true
  | _ => false

/-- A value produced by `JSON.parse`, as far as the handlers look at it:
`null` (reading a property of it throws a `TypeError`), or any other value
with its `sdp` and `candidate` properties (`none` for `undefined`). -/
inductive Json where
  | null
  | value (sdp : Option String) (candidate : Option String)
deriving DecidableEq, Repr

/-- A document of the `signals` collection, with the fields `sendSignal`
writes (lines 228-236).  The `payload` text is kept as the outcome of
`JSON.parse` on it: `none` when `JSON.parse` throws a `SyntaxError`. -/
structure SignalDoc where
  type : String
  sender : String
  receiver : String
  room : String
  timestamp : Nat
  payload : Option Json
  ttl : Nat
deriving DecidableEq, Repr

/-- One element of `snapshot.docChanges()`. -/
structure DocChange where
  type : String
  doc : SignalDoc
deriving DecidableEq, Repr

/-- The global state of app.js (lines 6-17) that the signalling core reads
and writes, the heap of connections, the clock `Date.now()` and the two
logs. -/
structure State where
  userId : String
  now : Nat
  localStream : Option (List String)
  unsubscribers : Nat
  peerConnections : List (String × Nat)
  connectedPeers : List String
  connections : List Connection
  calls : List Call
  signals : List SignalDoc
deriving DecidableEq, Repr

/-- The state after the globals are set up: empty tables, no connection. -/
def State.init (userId : String) (localStream : Option (List String)) : State :=
  { userId := userId, now := 0, localStream := localStream, unsubscribers := 0,
    peerConnections := [], connectedPeers := [], connections := [],
    calls := [], signals := [] }

/-! ## `Map` and `Set` -/

/-- The lookup `Map.prototype.get`. -/
def mapGet : List (String × Nat) → String → Option Nat
  | [], _ => none
  | (k, v) :: rest, key => if k = key then some v else mapGet rest key

/-- The update `Map.prototype.set`: replaces the value of a present key in
place, appends an absent one. -/
def mapSet (m : List (String × Nat)) (key : String) (v : Nat) : List (String × Nat) :=
  match mapGet m key with
  | some _ => m.map (fun e => if e.1 = key then (key, v) else e)
  | none => m ++ [(key, v)]

/-- The removal `Map.prototype.delete`. -/
def mapDelete (m : List (String × Nat)) (key : String) : List (String × Nat) :=
  m.filter (fun e => decide (e.1 ≠ key))

/-- The insertion `Set.prototype.add`. -/
def setAdd (xs : List String) (x : String) : List String :=
  if x ∈ xs then xs else xs ++ [x]

/-- The removal `Set.prototype.delete`. -/
def setDelete (xs : List String) (x : String) : List String :=
  xs.filter (fun y => decide (y ≠ x))

/-! ## Calls on a connection -/

/-- The call `pc.setRemoteDescription(d)`: logged, and recorded on the
connection when the transport accepts it.  The flag tells whether the
promise resolved. -/
def pcSetRemoteDescription (T : MediaTransport) (s : State) (h : Nat)
    (d : SessionDescription) : State × Bool :=
  match s.connections[h]? with
  | none => (s, false)
  | some c =>
    let s1 := { s with calls := s.calls ++ [Call.setRemoteDescription h d] }
    if T.setRemoteDescription c d then
      ({ s1 with connections := s1.connections.set h { c with remoteDescription := some d } }, true)
    else (s1, false)

/-- The call `pc.createAnswer()`: logged; yields the `sdp` of the answer
when the promise resolves. -/
def pcCreateAnswer (T : MediaTransport) (s : State) (h : Nat) : State × Option String :=
  match s.connections[h]? with
  | none => (s, none)
  | some c => ({ s with calls := s.calls ++ [Call.createAnswer h] }, T.createAnswer c)

/-- The call `pc.setLocalDescription(d)`. -/
def pcSetLocalDescription (T : MediaTransport) (s : State) (h : Nat)
    (d : SessionDescription) : State × Bool :=
  match s.connections[h]? with
  | none => (s, false)
  | some c =>
    let s1 := { s with calls := s.calls ++ [Call.setLocalDescription h d] }
    if T.setLocalDescription c d then
      ({ s1 with connections := s1.connections.set h { c with localDescription := some d } }, true)
    else (s1, false)

/-- The call `pc.addIceCandidate(candidate)`. -/
def pcAddIceCandidate (T : MediaTransport) (s : State) (h : Nat)
    (candidate : Option String) : State :=
  match s.connections[h]? with
  | none => s
  | some c =>
    let s1 := { s with calls := s.calls ++ [Call.addIceCandidate h candidate] }
    if T.addIceCandidate c candidate then
      { s1 with connections := s1.connections.set h { c with candidates := c.candidates ++ [candidate] } }
    else s1

/-- The call `pc.close()`. -/
def pcClose (s : State) (h : Nat) : State :=
  match s.connections[h]? with
  | none => s
  | some c =>
    { s with calls := s.calls ++ [Call.close h],
             connections := s.connections.set h
               { c with closed := true, connectionState := ConnectionState.closed } }

/-! ## The functions of app.js -/

/-- The function `createPeerConnection` (lines 182-221): constructs a
connection, adds the tracks of the local stream when there is one, and
stores the connection under `peerId`.  Returns the state and the handle. -/
def createPeerConnection (s : State) (peerId : String) : State × Nat :=
  let h := s.connections.length
  let tracks := match s.localStream with
    | some ts => ts
    | none => []
  let pc : Connection :=
    { peerId := peerId, tracks := tracks, closed := false,
      connectionState := ConnectionState.new,
      remoteDescription := none, localDescription := none, candidates := [] }
  ({ s with connections := s.connections ++ [pc],
            calls := s.calls ++ Call.construct h peerId :: tracks.map (Call.addTrack h),
            peerConnections := mapSet s.peerConnections peerId h }, h)

/-- The function `sendSignal` (lines 223-242): one `setDoc` of a document
stamped with the sender, the room and an expiry one minute ahead. -/
def sendSignal (s : State) (peerId : String) (type : String) (payload : Json) : State :=
  { s with signals := s.signals ++
      [{ type := type, sender := s.userId, receiver := peerId, room := ROOM_ID,
         timestamp := s.now, payload := some payload, ttl := s.now + 60000 }] }

/-- Lines 251-261 of `handleOffer`, on the connection `h`: apply the offer,
create and apply the answer, send it, add the peer to `connectedPeers`.  A
rejected step leaves through the `catch`. -/
def answerOffer (T : MediaTransport) (s : State) (h : Nat) (peerId : String)
    (offerSdp : Option String) : State :=
  let r1 := pcSetRemoteDescription T s h ⟨SdpType.offer, offerSdp⟩
  if r1.2 then
    let r2 := pcCreateAnswer T r1.1 h
    match r2.2 with
    | none => r2.1
    | some answerSdp =>
      let r3 := pcSetLocalDescription T r2.1 h ⟨SdpType.answer, some answerSdp⟩
      if r3.2 then
        let s4 := sendSignal r3.1 peerId "answer" (Json.value (some answerSdp) none)
        { s4 with connectedPeers := setAdd s4.connectedPeers peerId }
      else r3.1
  else r1.1

/-- The function `handleOffer` (lines 244-265). -/
def handleOffer (T : MediaTransport) (s : State) (peerId : String)
    (offerSdp : Option String) : State :=
  match mapGet s.peerConnections peerId with
  | some h => answerOffer T s h peerId offerSdp
  | none =>
    let r := createPeerConnection s peerId
    answerOffer T r.1 r.2 peerId offerSdp

/-- The function `handleAnswer` (lines 267-281). -/
def handleAnswer (T : MediaTransport) (s : State) (peerId : String)
    (answerSdp : Option String) : State :=
  match mapGet s.peerConnections peerId with
  | none => s
  | some h =>
    let r := pcSetRemoteDescription T s h ⟨SdpType.answer, answerSdp⟩
    if r.2 then { r.1 with connectedPeers := setAdd r.1.connectedPeers peerId } else r.1

/-- The function `handleCandidate` (lines 283-293).  Reading `.candidate`
of `null` and a throwing `new RTCIceCandidate` both leave through the
`catch` before `addIceCandidate` is called. -/
def handleCandidate (T : MediaTransport) (s : State) (peerId : String)
    (candidateData : Json) : State :=
  match mapGet s.peerConnections peerId with
  | none => s
  | some h =>
    match candidateData with
    | Json.null => s
    | Json.value _ candidate =>
      if T.newIceCandidate candidate then pcAddIceCandidate T s h candidate else s

/-- The function `disconnectPeer` (lines 295-308). -/
def disconnectPeer (s : State) (peerId : String) : State :=
  let s1 := match mapGet s.peerConnections peerId with
    | some h => { pcClose s h with peerConnections := mapDelete s.peerConnections peerId }
    | none => s
  { s1 with connectedPeers := setDelete s1.connectedPeers peerId }

/-- The loop `window.peerConnections.forEach((pc, peerId) => pc.close())`. -/
def closeAll (s : State) : List (String × Nat) → State
  | [] => s
  | (_, h) :: rest => closeAll (pcClose s h) rest

/-- The function `window.leaveRoom` (lines 391-411). -/
def leaveRoom (s : State) : State :=
  let s1 := closeAll { s with unsubscribers := 0 } s.peerConnections
  { s1 with peerConnections := [], connectedPeers := [], localStream := none }

/-- The callback `peerConnection.onconnectionstatechange` (lines 212-217),
fired when the transport moves connection `h` to the state `st`. -/
def onconnectionstatechange (s : State) (h : Nat) (st : ConnectionState) : State :=
  match s.connections[h]? with
  | none => s
  | some c =>
    let s1 := { s with connections := s.connections.set h { c with connectionState := st } }
    if st = ConnectionState.failed ∨ st = ConnectionState.disconnected then
      disconnectPeer s1 c.peerId
    else s1

/-- The callback `peerConnection.onicecandidate` (lines 193-199), fired by
connection `h` with `event.candidate` (`none` for `null`). -/
def onicecandidate (s : State) (h : Nat) (candidate : Option String) : State :=
  match s.connections[h]? with
  | none => s
  | some c =>
    match candidate with
    | none => s
    | some cand => sendSignal s c.peerId "candidate" (Json.value none (some cand))

/-- The outcome of running a callback body: the state it leaves and whether
an exception left it. -/
structure Completion where
  state : State
  thrown : Bool
deriving DecidableEq, Repr

/-- The body of the `forEach` callback of the snapshot listener (lines
322-338).  `JSON.parse` and the read of `payload.sdp` are outside every
`try`: an exception there leaves the callback. -/
def onDocChange (T : MediaTransport) (s : State) (change : DocChange) : Completion :=
  if change.type = "added" then
    let data := change.doc
    let peerId := data.sender
    if data.type = "offer" then
      match data.payload with
      | none => ⟨s, true⟩
      | some Json.null => ⟨s, true⟩
      | some (Json.value sdp _) => ⟨handleOffer T s peerId sdp, false⟩
    else if data.type = "answer" then
      match data.payload with
      | none => ⟨s, true⟩
      | some Json.null => ⟨s, true⟩
      | some (Json.value sdp _) => ⟨handleAnswer T s peerId sdp, false⟩
    else if data.type = "candidate" then
      match data.payload with
      | none => ⟨s, true⟩
      | some payload => ⟨handleCandidate T s peerId payload, false⟩
    else ⟨s, false⟩
  else ⟨s, false⟩

/-- The snapshot callback (lines 321-339): `forEach` over the changes, in
order; an exception thrown by the body ends the loop and leaves the
callback. -/
def onSnapshot (T : MediaTransport) (s : State) : List DocChange → Completion
  | [] => ⟨s, false⟩
  | change :: rest =>
    let r := onDocChange T s change
    if r.thrown then r else onSnapshot T r.state rest

/-- An event delivered to the signalling core. -/
inductive Event where
  | offer (peerId : String) (sdp : Option String)
  | answer (peerId : String) (sdp : Option String)
  | candidate (peerId : String) (data : Json)
  | connectionState (h : Nat) (st : ConnectionState)
  | iceCandidate (h : Nat) (candidate : Option String)
  | leaveRoom
  | clock (t : Nat)
deriving DecidableEq, Repr

/-- The effect of one event. -/
def step (T : MediaTransport) (s : State) : Event → State
  | .offer p sdp => handleOffer T s p sdp
  | .answer p sdp => handleAnswer T s p sdp
  | .candidate p data => handleCandidate T s p data
  | .connectionState h st => onconnectionstatechange s h st
  | .iceCandidate h c => onicecandidate s h c
  | .leaveRoom => leaveRoom s
  | .clock t => { s with now := t }

/-- The effect of a sequence of events, one after another. -/
def run (T : MediaTransport) (s : State) (evs : List Event) : State :=
  evs.foldl (step T) s

/-- A transport that accepts every call and answers with the fixed `sdp`. -/
def acceptAll (answerSdp : String) : MediaTransport :=
  { setRemoteDescription := fun _ _ => true,
    createAnswer := fun _ => some answerSdp,
    setLocalDescription := fun _ _ => true,
    newIceCandidate := fun _ => true,
    addIceCandidate := fun _ _ => true }

/-- The peer and the `closed` flag of every connection of the heap, by
handle: what the tables are checked against. -/
def shape (s : State) : List (String × Bool) :=
  s.connections.map (fun c => (c.peerId, c.closed))

/-- The state `t` comes from `s` by calls on connections that all satisfy
`P`, which changed neither the tables' keys and handles nor the peer and
`closed` flag of any connection. -/
def Steps (P : Call → Prop) (s t : State) : Prop :=
  t.userId = s.userId ∧ t.now = s.now ∧ t.localStream = s.localStream ∧
  t.unsubscribers = s.unsubscribers ∧ t.peerConnections = s.peerConnections ∧
  shape t = shape s ∧ ∃ l, t.calls = s.calls ++ l ∧ ∀ c ∈ l, P c

/-- The number of `addIceCandidate` calls made on the connection `h`. -/
def addIceCandidateCalls (s : State) (h : Nat) : Nat :=
  (s.calls.filter (fun c => c.isAddIceCandidate && decide (c.handle = h))).length

/-- The `setRemoteDescription` calls made on the connection `h`. -/
def setRemoteDescriptionCalls (s : State) (h : Nat) : Nat :=
  (s.calls.filter (fun c => match c with
    | Call.setRemoteDescription k _ => decide (k = h)
    | _ => false)).length

/-- Every connection of the heap is closed, or is open and is the entry of
its peer in `peerConnections`. -/
def NoDangling (s : State) : Prop :=
  ∀ h c, s.connections[h]? = some c →
    c.closed = true ∨ (c.closed = false ∧ mapGet s.peerConnections c.peerId = some h)

/-- The table and the heap agree: an entry of the table is a handle of an
open connection of that peer, and an open connection is the entry of its
peer. -/
def Consistent (s : State) : Prop :=
  (∀ p h, mapGet s.peerConnections p = some h → (shape s)[h]? = some (p, false)) ∧
  (∀ h p, (shape s)[h]? = some (p, false) → mapGet s.peerConnections p = some h)

/-! ## Lookup lemmas -/

theorem mapGet_append (m : List (String × Nat)) (k key : String) (v : Nat) :
    mapGet (m ++ [(k, v)]) key =
      match mapGet m key with
      | some w => some w
      | none => if k = key then some v else none := by
  induction m with
  | nil => simp [mapGet]
  | cons e rest ih =>
    obtain ⟨k1, v1⟩ := e
    by_cases hk : k1 = key
    · simp [mapGet, hk]
    · simp [mapGet, hk, ih]

theorem mapGet_mapDelete_self (m : List (String × Nat)) (key : String) :
    mapGet (mapDelete m key) key = none := by
  induction m with
  | nil => simp [mapDelete, mapGet]
  | cons e rest ih =>
    obtain ⟨k1, v1⟩ := e
    by_cases hk : k1 = key
    · simpa [mapDelete, hk] using ih
    · simpa [mapDelete, hk, mapGet] using ih

theorem mapGet_mapDelete_ne (m : List (String × Nat)) (key q : String) (hq : q ≠ key) :
    mapGet (mapDelete m key) q = mapGet m q := by
  induction m with
  | nil => simp [mapDelete, mapGet]
  | cons e rest ih =>
    obtain ⟨k1, v1⟩ := e
    have ih2 : mapGet (List.filter (fun e => decide (e.1 ≠ key)) rest) q = mapGet rest q := ih
    by_cases hk : k1 = key
    · have hkq : ¬ k1 = q := by
        intro h
        exact hq (h ▸ hk)
      have hf : List.filter (fun e => decide (e.1 ≠ key)) ((k1, v1) :: rest)
          = List.filter (fun e => decide (e.1 ≠ key)) rest := by
        simp [List.filter, hk]
      unfold mapDelete
      rw [hf, ih2]
      simp [mapGet, hkq]
    · have hf : List.filter (fun e => decide (e.1 ≠ key)) ((k1, v1) :: rest)
          = (k1, v1) :: List.filter (fun e => decide (e.1 ≠ key)) rest := by
        simp [List.filter, hk]
      unfold mapDelete
      rw [hf]
      simp only [mapGet]
      rw [ih2]

theorem mem_setAdd (xs : List String) (x y : String) :
    y ∈ setAdd xs x ↔ y ∈ xs ∨ y = x := by
  unfold setAdd
  by_cases hx : x ∈ xs
  · simp only [hx, if_true]
    constructor
    · intro h
      exact Or.inl h
    · intro h
      rcases h with h | h
      · exact h
      · exact h ▸ hx
  · simp [hx]

theorem setAdd_setAdd (xs : List String) (x : String) :
    setAdd (setAdd xs x) x = setAdd xs x := by
  have h : x ∈ setAdd xs x := (mem_setAdd xs x x).2 (Or.inr rfl)
  generalize setAdd xs x = ys at h ⊢
  simp [setAdd, h]

theorem not_mem_setDelete (xs : List String) (x : String) : x ∉ setDelete xs x := by
  simp [setDelete]

theorem map_set_same {α β : Type} (f : α → β) (l : List α) (h : Nat) (c d : α)
    (hc : l[h]? = some c) (hf : f d = f c) : (l.set h d).map f = l.map f := by
  induction l generalizing h with
  | nil => simp
  | cons x rest ih =>
    cases h with
    | zero =>
      simp at hc
      simp [hc, hf]
    | succ k =>
      simp at hc
      simp [ih k hc]

theorem Steps.refl (P : Call → Prop) (s : State) : Steps P s s :=
  ⟨rfl, rfl, rfl, rfl, rfl, rfl, [], by simp, by simp⟩

theorem Steps.trans {P : Call → Prop} {s t u : State} (h1 : Steps P s t) (h2 : Steps P t u) :
    Steps P s u := by
  obtain ⟨a1, a2, a3, a4, a5, a6, l1, a7, a8⟩ := h1
  obtain ⟨b1, b2, b3, b4, b5, b6, l2, b7, b8⟩ := h2
  refine ⟨b1.trans a1, b2.trans a2, b3.trans a3, b4.trans a4, b5.trans a5, b6.trans a6,
    l1 ++ l2, ?_, ?_⟩
  · rw [b7, a7, List.append_assoc]
  · intro c hc
    rcases List.mem_append.mp hc with h | h
    · exact a8 c h
    · exact b8 c h

theorem Steps.mono {P Q : Call → Prop} {s t : State} (hPQ : ∀ c, P c → Q c)
    (h : Steps P s t) : Steps Q s t := by
  obtain ⟨a1, a2, a3, a4, a5, a6, l1, a7, a8⟩ := h
  exact ⟨a1, a2, a3, a4, a5, a6, l1, a7, fun c hc => hPQ c (a8 c hc)⟩

theorem pcSetRemoteDescription_steps (T : MediaTransport) (s : State) (h : Nat)
    (d : SessionDescription) :
    Steps (fun c => c = Call.setRemoteDescription h d) s (pcSetRemoteDescription T s h d).1 := by
  unfold pcSetRemoteDescription
  cases hc : s.connections[h]? with
  | none => exact Steps.refl _ s
  | some c =>
    by_cases hT : T.setRemoteDescription c d = true
    · simp only [hT, if_true]
      refine ⟨rfl, rfl, rfl, rfl, rfl, ?_, [Call.setRemoteDescription h d], rfl, by simp⟩
      exact map_set_same _ _ _ _ _ hc rfl
    · simp only [hT]
      exact ⟨rfl, rfl, rfl, rfl, rfl, rfl, [Call.setRemoteDescription h d], rfl, by simp⟩

theorem pcCreateAnswer_steps (T : MediaTransport) (s : State) (h : Nat) :
    Steps (fun c => c = Call.createAnswer h) s (pcCreateAnswer T s h).1 := by
  unfold pcCreateAnswer
  cases hc : s.connections[h]? with
  | none => exact Steps.refl _ s
  | some c => exact ⟨rfl, rfl, rfl, rfl, rfl, rfl, [Call.createAnswer h], rfl, by simp⟩

theorem pcSetLocalDescription_steps (T : MediaTransport) (s : State) (h : Nat)
    (d : SessionDescription) :
    Steps (fun c => c = Call.setLocalDescription h d) s (pcSetLocalDescription T s h d).1 := by
  unfold pcSetLocalDescription
  cases hc : s.connections[h]? with
  | none => exact Steps.refl _ s
  | some c =>
    by_cases hT : T.setLocalDescription c d = true
    · simp only [hT, if_true]
      refine ⟨rfl, rfl, rfl, rfl, rfl, ?_, [Call.setLocalDescription h d], rfl, by simp⟩
      exact map_set_same _ _ _ _ _ hc rfl
    · simp only [hT]
      exact ⟨rfl, rfl, rfl, rfl, rfl, rfl, [Call.setLocalDescription h d], rfl, by simp⟩

theorem pcAddIceCandidate_steps (T : MediaTransport) (s : State) (h : Nat)
    (candidate : Option String) :
    Steps (fun c => c = Call.addIceCandidate h candidate) s (pcAddIceCandidate T s h candidate) := by
  unfold pcAddIceCandidate
  cases hc : s.connections[h]? with
  | none => exact Steps.refl _ s
  | some c =>
    by_cases hT : T.addIceCandidate c candidate = true
    · simp only [hT, if_true]
      refine ⟨rfl, rfl, rfl, rfl, rfl, ?_, [Call.addIceCandidate h candidate], rfl, by simp⟩
      exact map_set_same _ _ _ _ _ hc rfl
    · simp only [hT]
      exact ⟨rfl, rfl, rfl, rfl, rfl, rfl, [Call.addIceCandidate h candidate], rfl, by simp⟩

theorem answerOffer_steps (T : MediaTransport) (s : State) (h : Nat) (p : String)
    (sdp : Option String) :
    Steps (fun c => c.handle = h ∧ c.isAddIceCandidate = false ∧ c.isConstruct = false) s (answerOffer T s h p sdp) := by
  have h1 := Steps.mono (Q := fun c => c.handle = h ∧ c.isAddIceCandidate = false ∧ c.isConstruct = false)
    (fun c hc => by subst hc; exact ⟨rfl, rfl, rfl⟩)
    (pcSetRemoteDescription_steps T s h ⟨SdpType.offer, sdp⟩)
  have h2 := Steps.mono (Q := fun c => c.handle = h ∧ c.isAddIceCandidate = false ∧ c.isConstruct = false)
    (fun c hc => by subst hc; exact ⟨rfl, rfl, rfl⟩)
    (pcCreateAnswer_steps T (pcSetRemoteDescription T s h ⟨SdpType.offer, sdp⟩).1 h)
  unfold answerOffer
  by_cases hr1 : (pcSetRemoteDescription T s h ⟨SdpType.offer, sdp⟩).2 = true
  · simp only [hr1, if_true]
    cases hr2 : (pcCreateAnswer T (pcSetRemoteDescription T s h ⟨SdpType.offer, sdp⟩).1 h).2 with
    | none => exact h1.trans h2
    | some a =>
      have h3 := Steps.mono (Q := fun c => c.handle = h ∧ c.isAddIceCandidate = false ∧ c.isConstruct = false)
        (fun c hc => by subst hc; exact ⟨rfl, rfl, rfl⟩)
        (pcSetLocalDescription_steps T
          (pcCreateAnswer T (pcSetRemoteDescription T s h ⟨SdpType.offer, sdp⟩).1 h).1 h
          ⟨SdpType.answer, some a⟩)
      simp only []
      by_cases hr3 : (pcSetLocalDescription T
          (pcCreateAnswer T (pcSetRemoteDescription T s h ⟨SdpType.offer, sdp⟩).1 h).1 h
          ⟨SdpType.answer, some a⟩).2 = true
      · simp only [hr3, if_true]
        refine (h1.trans (h2.trans h3)).trans ?_
        exact ⟨rfl, rfl, rfl, rfl, rfl, rfl, [], by simp [sendSignal], by simp⟩
      · simp only [hr3]
        exact h1.trans (h2.trans h3)
  · simp only [hr1]
    exact h1

/-! ## C1 -/

/-- C1. An offer from a peer with no entry in `peerConnections`, on a
transport that rejects none of the three calls: one connection is
constructed and stored under the peer, the calls made are the construction,
the tracks, `setRemoteDescription` with the offer, `createAnswer` and
`setLocalDescription` in this order, exactly one document is sent, an
`answer` from the local user to the peer in `ROOM_ID`, and the other entries
of the table are as before. -/
theorem handleOffer_unknown_peer (T : MediaTransport) (s : State) (p : String)
    (sdp : Option String)
    (hp : mapGet s.peerConnections p = none)
    (hR : ∀ c d, T.setRemoteDescription c d = true)
    (hA : ∀ c, (T.createAnswer c).isSome = true)
    (hL : ∀ c d, T.setLocalDescription c d = true) :
    (∃ c, (handleOffer T s p sdp).connections = s.connections ++ [c] ∧ c.peerId = p ∧
        c.closed = false ∧ c.remoteDescription = some ⟨SdpType.offer, sdp⟩) ∧
    (handleOffer T s p sdp).peerConnections = s.peerConnections ++ [(p, s.connections.length)] ∧
    mapGet (handleOffer T s p sdp).peerConnections p = some s.connections.length ∧
    (∀ q, q ≠ p →
      mapGet (handleOffer T s p sdp).peerConnections q = mapGet s.peerConnections q) ∧
    (∃ answerSdp,
      (handleOffer T s p sdp).calls =
        s.calls ++ Call.construct s.connections.length p ::
            (s.localStream.getD []).map (Call.addTrack s.connections.length) ++
          [Call.setRemoteDescription s.connections.length ⟨SdpType.offer, sdp⟩,
           Call.createAnswer s.connections.length,
           Call.setLocalDescription s.connections.length ⟨SdpType.answer, some answerSdp⟩] ∧
      (handleOffer T s p sdp).signals =
        s.signals ++ [{ type := "answer", sender := s.userId, receiver := p, room := ROOM_ID,
                        timestamp := s.now, payload := some (Json.value (some answerSdp) none),
                        ttl := s.now + 60000 }]) := by
  obtain ⟨a, ha⟩ := Option.isSome_iff_exists.mp (hA
    { peerId := p, tracks := s.localStream.getD [], closed := false,
      connectionState := ConnectionState.new,
      remoteDescription := some ⟨SdpType.offer, sdp⟩, localDescription := none,
      candidates := [] })
  have hls : (match s.localStream with
      | some ts => ts
      | none => []) = s.localStream.getD [] := by
    cases s.localStream <;> rfl
  have hres : handleOffer T s p sdp =
      { s with
        connections := s.connections ++
          [{ peerId := p, tracks := s.localStream.getD [], closed := false,
             connectionState := ConnectionState.new,
             remoteDescription := some ⟨SdpType.offer, sdp⟩,
             localDescription := some ⟨SdpType.answer, some a⟩, candidates := [] }],
        peerConnections := s.peerConnections ++ [(p, s.connections.length)],
        calls := s.calls ++ Call.construct s.connections.length p ::
            (s.localStream.getD []).map (Call.addTrack s.connections.length) ++
          [Call.setRemoteDescription s.connections.length ⟨SdpType.offer, sdp⟩,
           Call.createAnswer s.connections.length,
           Call.setLocalDescription s.connections.length ⟨SdpType.answer, some a⟩],
        signals := s.signals ++
          [{ type := "answer", sender := s.userId, receiver := p,
             room := ROOM_ID, timestamp := s.now,
             payload := some (Json.value (some a) none),
             ttl := s.now + 60000 }],
        connectedPeers := setAdd s.connectedPeers p } := by
    simp [handleOffer, hp, createPeerConnection, mapSet, answerOffer, pcSetRemoteDescription,
      pcCreateAnswer, pcSetLocalDescription, sendSignal, hR, hL, hls, ha]
  rw [hres]
  refine ⟨⟨_, rfl, rfl, rfl, rfl⟩, rfl, ?_, ?_, ⟨a, rfl, rfl⟩⟩
  · simp [mapGet_append, hp]
  · intro q hq
    have hq2 : ¬ p = q := fun h => hq h.symm
    simp only [mapGet_append, hq2, if_false]
    cases mapGet s.peerConnections q <;> rfl

/-- Instance of C1: the first offer of "bob" received by "alice". -/
theorem handleOffer_unknown_peer_witness :
    mapGet (handleOffer (acceptAll "v=0 a") (State.init "alice" (some ["mic"])) "bob"
      (some "v=0 o")).peerConnections "bob" = some 0 :=
  (handleOffer_unknown_peer (acceptAll "v=0 a") (State.init "alice" (some ["mic"])) "bob"
    (some "v=0 o") rfl (fun _ _ => rfl) (fun _ => rfl) (fun _ _ => rfl)).2.2.1

/-! ## C2 -/

theorem createPeerConnection_fresh (s : State) (p : String)
    (hp : mapGet s.peerConnections p = none) :
    (createPeerConnection s p).2 = s.connections.length ∧
    (createPeerConnection s p).1.peerConnections = s.peerConnections ++ [(p, s.connections.length)] ∧
    shape (createPeerConnection s p).1 = shape s ++ [(p, false)] ∧
    (createPeerConnection s p).1.connectedPeers = s.connectedPeers ∧
    (createPeerConnection s p).1.signals = s.signals ∧
    ∃ l, (createPeerConnection s p).1.calls = s.calls ++ l ∧
      ∀ c ∈ l, c.handle = s.connections.length ∧ c.isAddIceCandidate = false := by
  refine ⟨rfl, ?_, ?_, rfl, rfl, _, rfl, ?_⟩
  · simp [createPeerConnection, mapSet, hp]
  · simp [createPeerConnection, shape]
  · intro c hc
    rcases List.mem_cons.mp hc with h | h
    · subst h
      exact ⟨rfl, rfl⟩
    · obtain ⟨t, _, ht⟩ := List.mem_map.mp h
      subst ht
      exact ⟨rfl, rfl⟩

theorem handleOffer_calls (T : MediaTransport) (s : State) (p : String) (sdp : Option String) :
    ∃ l, (handleOffer T s p sdp).calls = s.calls ++ l ∧
      ∀ c ∈ l, c.handle = (mapGet s.peerConnections p).getD s.connections.length ∧
        c.isAddIceCandidate = false := by
  unfold handleOffer
  cases hp : mapGet s.peerConnections p with
  | some h =>
    obtain ⟨_, _, _, _, _, _, l, hl, hP⟩ := answerOffer_steps T s h p sdp
    exact ⟨l, hl, fun c hc => ⟨(hP c hc).1, (hP c hc).2.1⟩⟩
  | none =>
    obtain ⟨h1, _, _, _, _, l1, hl1, hP1⟩ := createPeerConnection_fresh s p hp
    obtain ⟨_, _, _, _, _, _, l2, hl2, hP2⟩ :=
      answerOffer_steps T (createPeerConnection s p).1 (createPeerConnection s p).2 p sdp
    refine ⟨l1 ++ l2, ?_, ?_⟩
    · simp only []
      rw [hl2, hl1, List.append_assoc]
    · intro c hc
      rcases List.mem_append.mp hc with h | h
      · exact hP1 c h
      · have := hP2 c h
        rw [h1] at this
        exact ⟨this.1, this.2.1⟩

theorem handleOffer_peerConnections (T : MediaTransport) (s : State) (p : String)
    (sdp : Option String) :
    (handleOffer T s p sdp).peerConnections =
      match mapGet s.peerConnections p with
      | some _ => s.peerConnections
      | none => s.peerConnections ++ [(p, s.connections.length)] := by
  unfold handleOffer
  cases hp : mapGet s.peerConnections p with
  | some h =>
    obtain ⟨_, _, _, _, h5, _⟩ := answerOffer_steps T s h p sdp
    exact h5
  | none =>
    obtain ⟨_, h2, _⟩ := createPeerConnection_fresh s p hp
    obtain ⟨_, _, _, _, h5, _⟩ :=
      answerOffer_steps T (createPeerConnection s p).1 (createPeerConnection s p).2 p sdp
    simp only []
    rw [h5, h2]

/-- C2, refuted as stated: from the empty state of "alice", two candidates
and then an offer of "bob" leave the connection of "bob" with no
`addIceCandidate` call at all, not two, although `setRemoteDescription` was
called on it. -/
theorem buffering_law_counterexample :
    mapGet (State.init "alice" none).peerConnections "bob" = none ∧
    mapGet (handleOffer (acceptAll "v=0 a")
      (handleCandidate (acceptAll "v=0 a")
        (handleCandidate (acceptAll "v=0 a") (State.init "alice" none) "bob"
          (Json.value none (some "candidate:1")))
        "bob" (Json.value none (some "candidate:2")))
      "bob" (some "v=0 o")).peerConnections "bob" = some 0 ∧
    setRemoteDescriptionCalls (handleOffer (acceptAll "v=0 a")
      (handleCandidate (acceptAll "v=0 a")
        (handleCandidate (acceptAll "v=0 a") (State.init "alice" none) "bob"
          (Json.value none (some "candidate:1")))
        "bob" (Json.value none (some "candidate:2")))
      "bob" (some "v=0 o")) 0 = 1 ∧
    addIceCandidateCalls (handleOffer (acceptAll "v=0 a")
      (handleCandidate (acceptAll "v=0 a")
        (handleCandidate (acceptAll "v=0 a") (State.init "alice" none) "bob"
          (Json.value none (some "candidate:1")))
        "bob" (Json.value none (some "candidate:2")))
      "bob" (some "v=0 o")) 0 ≠ 2 := by
  decide

/-- C2, amended: from a state with no entry for the peer, each of the two
candidates is a lookup miss that changes nothing, the offer is then handled
as on the starting state, on the connection it creates, and no
`addIceCandidate` call is made during the whole sequence. -/
theorem candidates_before_offer_dropped (T : MediaTransport) (s : State) (p : String)
    (c1 c2 : Json) (sdp : Option String) (hp : mapGet s.peerConnections p = none) :
    handleCandidate T s p c1 = s ∧
    handleCandidate T (handleCandidate T s p c1) p c2 = s ∧
    handleOffer T (handleCandidate T (handleCandidate T s p c1) p c2) p sdp
      = handleOffer T s p sdp ∧
    mapGet (handleOffer T (handleCandidate T (handleCandidate T s p c1) p c2) p sdp).peerConnections
      p = some s.connections.length ∧
    ∃ l, (handleOffer T (handleCandidate T (handleCandidate T s p c1) p c2) p sdp).calls
        = s.calls ++ l ∧ ∀ c ∈ l, c.isAddIceCandidate = false := by
  have hc : ∀ c, handleCandidate T s p c = s := by
    intro c
    simp [handleCandidate, hp]
  rw [hc c1, hc c2]
  refine ⟨rfl, rfl, rfl, ?_, ?_⟩
  · rw [handleOffer_peerConnections, hp]
    simp [mapGet_append, hp]
  · obtain ⟨l, hl, hP⟩ := handleOffer_calls T s p sdp
    exact ⟨l, hl, fun c hc => (hP c hc).2⟩

/-- Instance of the amended C2 at the empty state of "alice". -/
theorem candidates_before_offer_dropped_witness :
    handleCandidate (acceptAll "v=0 a") (State.init "alice" none) "bob"
      (Json.value none (some "candidate:1")) = State.init "alice" none :=
  (candidates_before_offer_dropped (acceptAll "v=0 a") (State.init "alice" none) "bob"
    (Json.value none (some "candidate:1")) (Json.value none (some "candidate:2"))
    (some "v=0 o") rfl).1

/-! ## C3 -/

/-- C3, refuted as stated: at time 100000 an added `offer` document of "bob"
whose `ttl` is 1000 is dispatched to `handleOffer`, which constructs a
connection, calls the transport and sends an answer. -/
theorem expired_offer_counterexample :
    (1000 : Nat) < (step (acceptAll "v=0 a") (State.init "alice" none) (Event.clock 100000)).now ∧
    (onDocChange (acceptAll "v=0 a")
      (step (acceptAll "v=0 a") (State.init "alice" none) (Event.clock 100000))
      { type := "added",
        doc := { type := "offer", sender := "bob", receiver := "alice", room := "general",
                 timestamp := 0, payload := some (Json.value (some "v=0 o") none),
                 ttl := 1000 } }).state.peerConnections = [("bob", 0)] ∧
    (onDocChange (acceptAll "v=0 a")
      (step (acceptAll "v=0 a") (State.init "alice" none) (Event.clock 100000))
      { type := "added",
        doc := { type := "offer", sender := "bob", receiver := "alice", room := "general",
                 timestamp := 0, payload := some (Json.value (some "v=0 o") none),
                 ttl := 1000 } }).state.signals.length = 1 ∧
    (onDocChange (acceptAll "v=0 a")
      (step (acceptAll "v=0 a") (State.init "alice" none) (Event.clock 100000))
      { type := "added",
        doc := { type := "offer", sender := "bob", receiver := "alice", room := "general",
                 timestamp := 0, payload := some (Json.value (some "v=0 o") none),
                 ttl := 1000 } }).state.connectedPeers = ["bob"] := by
  decide

/-- C3, amended: staleness is not filtered.  An added document whose `ttl`
is earlier than the current time is applied as a fresh one would be: an
`offer` or an `answer` whose payload parses to a value other than `null` is
handed to `handleOffer`, respectively `handleAnswer`, with the sender and
`payload.sdp`, a `candidate` whose payload parses is handed to
`handleCandidate` with the sender and the payload, and no exception leaves
the dispatch; in particular an expired offer of a peer with no entry gives
that peer an entry of `peerConnections`, on a new connection. -/
theorem expired_document_dispatched (T : MediaTransport) (s : State) (change : DocChange) :
    change.type = "added" → change.doc.ttl < s.now →
    (change.doc.type = "offer" → ∀ sdp cand,
      change.doc.payload = some (Json.value sdp cand) →
      onDocChange T s change = ⟨handleOffer T s change.doc.sender sdp, false⟩ ∧
      (mapGet s.peerConnections change.doc.sender = none →
        (onDocChange T s change).state.peerConnections
          = s.peerConnections ++ [(change.doc.sender, s.connections.length)])) ∧
    (change.doc.type = "answer" → ∀ sdp cand,
      change.doc.payload = some (Json.value sdp cand) →
      onDocChange T s change = ⟨handleAnswer T s change.doc.sender sdp, false⟩) ∧
    (change.doc.type = "candidate" → ∀ payload,
      change.doc.payload = some payload →
      onDocChange T s change = ⟨handleCandidate T s change.doc.sender payload, false⟩) := by
  intro hadded _
  refine ⟨?_, ?_, ?_⟩
  · intro htype sdp cand hpay
    have e : onDocChange T s change = ⟨handleOffer T s change.doc.sender sdp, false⟩ := by
      simp [onDocChange, hadded, htype, hpay]
    refine ⟨e, fun hnone => ?_⟩
    rw [e]
    simp only []
    rw [handleOffer_peerConnections, hnone]
  · intro htype sdp cand hpay
    simp [onDocChange, hadded, htype, hpay]
  · intro htype payload hpay
    simp [onDocChange, hadded, htype, hpay]

/-- Instance of the amended C3: at time 100000 the offer of "bob" with `ttl`
1000 is handed to `handleOffer` and gives "bob" the entry 0. -/
theorem expired_document_dispatched_witness :
    (onDocChange (acceptAll "v=0 a")
      (step (acceptAll "v=0 a") (State.init "alice" none) (Event.clock 100000))
      { type := "added",
        doc := { type := "offer", sender := "bob", receiver := "alice", room := "general",
                 timestamp := 0, payload := some (Json.value (some "v=0 o") none),
                 ttl := 1000 } }).state.peerConnections = [("bob", 0)] :=
  ((expired_document_dispatched (acceptAll "v=0 a")
    (step (acceptAll "v=0 a") (State.init "alice" none) (Event.clock 100000))
    { type := "added",
      doc := { type := "offer", sender := "bob", receiver := "alice", room := "general",
               timestamp := 0, payload := some (Json.value (some "v=0 o") none),
               ttl := 1000 } }
    rfl (by decide)).1 rfl (some "v=0 o") none rfl).2 rfl

/-! ## C4 -/

/-- C4, refuted as stated: "alice" sorts lower than "bob" and holds a
connection for "bob"; an offer of "bob" is not discarded: it replaces the
remote description of that connection and a second answer is sent. -/
theorem glare_counterexample :
    "alice" < "bob" ∧
    mapGet (handleOffer (acceptAll "v=0 a") (State.init "alice" none) "bob"
      (some "v=0 o1")).peerConnections "bob" = some 0 ∧
    (handleOffer (acceptAll "v=0 a") (State.init "alice" none) "bob"
      (some "v=0 o1")).signals.length = 1 ∧
    (handleOffer (acceptAll "v=0 a")
      (handleOffer (acceptAll "v=0 a") (State.init "alice" none) "bob" (some "v=0 o1"))
      "bob" (some "v=0 o2")).signals.length = 2 ∧
    ((handleOffer (acceptAll "v=0 a")
      (handleOffer (acceptAll "v=0 a") (State.init "alice" none) "bob" (some "v=0 o1"))
      "bob" (some "v=0 o2")).connections.map (fun c => c.remoteDescription))
      = [some ⟨SdpType.offer, some "v=0 o2"⟩] := by
  refine ⟨String.lt_iff_toList_lt.mpr (by decide), ?_⟩
  decide

theorem answerOffer_eq (T : MediaTransport) (s : State) (h : Nat) (p : String)
    (sdp : Option String) (c : Connection) (hc : s.connections[h]? = some c) :
    answerOffer T s h p sdp =
      if T.setRemoteDescription c ⟨SdpType.offer, sdp⟩ = true then
        match T.createAnswer { c with remoteDescription := some ⟨SdpType.offer, sdp⟩ } with
        | none =>
          { s with
            calls := s.calls ++ [Call.setRemoteDescription h ⟨SdpType.offer, sdp⟩,
              Call.createAnswer h],
            connections := s.connections.set h
              { c with remoteDescription := some ⟨SdpType.offer, sdp⟩ } }
        | some a =>
          if T.setLocalDescription { c with remoteDescription := some ⟨SdpType.offer, sdp⟩ }
              ⟨SdpType.answer, some a⟩ = true then
            { s with
              calls := s.calls ++ [Call.setRemoteDescription h ⟨SdpType.offer, sdp⟩,
                Call.createAnswer h, Call.setLocalDescription h ⟨SdpType.answer, some a⟩],
              connections := s.connections.set h
                { c with remoteDescription := some ⟨SdpType.offer, sdp⟩,
                         localDescription := some ⟨SdpType.answer, some a⟩ },
              signals := s.signals ++
                [{ type := "answer", sender := s.userId, receiver := p, room := ROOM_ID,
                   timestamp := s.now, payload := some (Json.value (some a) none),
                   ttl := s.now + 60000 }],
              connectedPeers := setAdd s.connectedPeers p }
          else
            { s with
              calls := s.calls ++ [Call.setRemoteDescription h ⟨SdpType.offer, sdp⟩,
                Call.createAnswer h, Call.setLocalDescription h ⟨SdpType.answer, some a⟩],
              connections := s.connections.set h
                { c with remoteDescription := some ⟨SdpType.offer, sdp⟩ } }
      else
        { s with calls := s.calls ++ [Call.setRemoteDescription h ⟨SdpType.offer, sdp⟩] } := by
  have hlen : h < s.connections.length := by
    by_contra hn
    rw [List.getElem?_eq_none (Nat.le_of_not_lt hn)] at hc
    exact Option.noConfusion hc
  by_cases b1 : T.setRemoteDescription c ⟨SdpType.offer, sdp⟩ = true
  · cases b2 : T.createAnswer { c with remoteDescription := some ⟨SdpType.offer, sdp⟩ } with
    | none =>
      simp [answerOffer, pcSetRemoteDescription, pcCreateAnswer, hc, b1, b2, hlen]
    | some a =>
      by_cases b3 : T.setLocalDescription
          { c with remoteDescription := some ⟨SdpType.offer, sdp⟩ }
          ⟨SdpType.answer, some a⟩ = true
      · simp [answerOffer, pcSetRemoteDescription, pcCreateAnswer, pcSetLocalDescription,
          sendSignal, hc, b1, b2, b3, hlen]
      · simp [answerOffer, pcSetRemoteDescription, pcCreateAnswer, pcSetLocalDescription,
          hc, b1, b2, b3, hlen]
  · simp [answerOffer, pcSetRemoteDescription, hc, b1]

/-- C4, amended: an offer from a peer that already has a connection is
never discarded, whatever the order of the two identifiers: the handler
calls `setRemoteDescription` with the offer on the existing connection, and
when the transport accepts the three calls it sends one answer to the peer;
the calls, the heap and both tables after the handler are the same for every
local `userId`. -/
theorem offer_on_existing_session (T : MediaTransport) (s : State) (p : String)
    (sdp : Option String) (h : Nat) (c : Connection)
    (hp : mapGet s.peerConnections p = some h) (hc : s.connections[h]? = some c) :
    (∃ l, (handleOffer T s p sdp).calls
        = s.calls ++ Call.setRemoteDescription h ⟨SdpType.offer, sdp⟩ :: l) ∧
    (∀ a, T.setRemoteDescription c ⟨SdpType.offer, sdp⟩ = true →
      T.createAnswer { c with remoteDescription := some ⟨SdpType.offer, sdp⟩ } = some a →
      T.setLocalDescription { c with remoteDescription := some ⟨SdpType.offer, sdp⟩ }
        ⟨SdpType.answer, some a⟩ = true →
      (handleOffer T s p sdp).signals = s.signals ++
        [{ type := "answer", sender := s.userId, receiver := p, room := ROOM_ID,
           timestamp := s.now, payload := some (Json.value (some a) none),
           ttl := s.now + 60000 }] ∧
      (handleOffer T s p sdp).connections = s.connections.set h
        { c with remoteDescription := some ⟨SdpType.offer, sdp⟩,
                 localDescription := some ⟨SdpType.answer, some a⟩ }) ∧
    (∀ u, (handleOffer T { s with userId := u } p sdp).calls = (handleOffer T s p sdp).calls ∧
      (handleOffer T { s with userId := u } p sdp).connections
        = (handleOffer T s p sdp).connections ∧
      (handleOffer T { s with userId := u } p sdp).peerConnections
        = (handleOffer T s p sdp).peerConnections ∧
      (handleOffer T { s with userId := u } p sdp).connectedPeers
        = (handleOffer T s p sdp).connectedPeers ∧
      (handleOffer T { s with userId := u } p sdp).signals.length
        = (handleOffer T s p sdp).signals.length) := by
  have e1 : handleOffer T s p sdp = answerOffer T s h p sdp := by
    simp [handleOffer, hp]
  have e2 : ∀ u, handleOffer T { s with userId := u } p sdp
      = answerOffer T { s with userId := u } h p sdp := by
    intro u
    simp [handleOffer, hp]
  refine ⟨?_, ?_, ?_⟩
  · rw [e1, answerOffer_eq T s h p sdp c hc]
    by_cases b1 : T.setRemoteDescription c ⟨SdpType.offer, sdp⟩ = true
    · cases b2 : T.createAnswer { c with remoteDescription := some ⟨SdpType.offer, sdp⟩ } with
      | none => exact ⟨[Call.createAnswer h], by simp [b1]⟩
      | some a =>
        by_cases b3 : T.setLocalDescription
            { c with remoteDescription := some ⟨SdpType.offer, sdp⟩ }
            ⟨SdpType.answer, some a⟩ = true
        · exact ⟨[Call.createAnswer h, Call.setLocalDescription h ⟨SdpType.answer, some a⟩],
            by simp [b1, b3]⟩
        · exact ⟨[Call.createAnswer h, Call.setLocalDescription h ⟨SdpType.answer, some a⟩],
            by simp [b1, b3]⟩
    · exact ⟨[], by simp [b1]⟩
  · intro a b1 b2 b3
    rw [e1, answerOffer_eq T s h p sdp c hc]
    simp [b1, b2, b3]
  · intro u
    rw [e1, e2 u, answerOffer_eq T s h p sdp c hc,
      answerOffer_eq T { s with userId := u } h p sdp c hc]
    by_cases b1 : T.setRemoteDescription c ⟨SdpType.offer, sdp⟩ = true
    · cases b2 : T.createAnswer { c with remoteDescription := some ⟨SdpType.offer, sdp⟩ } with
      | none => simp [b1]
      | some a =>
        by_cases b3 : T.setLocalDescription
            { c with remoteDescription := some ⟨SdpType.offer, sdp⟩ }
            ⟨SdpType.answer, some a⟩ = true
        · simp [b1, b3]
        · simp [b1, b3]
    · simp [b1]

/-- Instance of the amended C4: the second offer of "bob" received by
"alice", who holds the connection 0 for "bob". -/
theorem offer_on_existing_session_witness :
    ∃ l, (handleOffer (acceptAll "v=0 a")
        (handleOffer (acceptAll "v=0 a") (State.init "alice" none) "bob" (some "v=0 o1"))
        "bob" (some "v=0 o2")).calls
      = (handleOffer (acceptAll "v=0 a") (State.init "alice" none) "bob" (some "v=0 o1")).calls
        ++ Call.setRemoteDescription 0 ⟨SdpType.offer, some "v=0 o2"⟩ :: l :=
  (offer_on_existing_session (acceptAll "v=0 a")
    (handleOffer (acceptAll "v=0 a") (State.init "alice" none) "bob" (some "v=0 o1"))
    "bob" (some "v=0 o2") 0
    { peerId := "bob", tracks := [], closed := false, connectionState := ConnectionState.new,
      remoteDescription := some ⟨SdpType.offer, some "v=0 o1"⟩,
      localDescription := some ⟨SdpType.answer, some "v=0 a"⟩, candidates := [] }
    (by decide) (by decide)).1

/-! ## C10 -/

/-- C10, refuted as stated: "alice" holds the connection 0 for "bob"; after
a further offer of "bob" the entry of "bob" is the same connection 0 and the
heap still has one connection. -/
theorem offer_replaces_connection_counterexample :
    mapGet (handleOffer (acceptAll "v=0 a") (State.init "alice" none) "bob"
      (some "v=0 o1")).peerConnections "bob" = some 0 ∧
    mapGet (handleOffer (acceptAll "v=0 a")
      (handleOffer (acceptAll "v=0 a") (State.init "alice" none) "bob" (some "v=0 o1"))
      "bob" (some "v=0 o2")).peerConnections "bob" = some 0 ∧
    (handleOffer (acceptAll "v=0 a")
      (handleOffer (acceptAll "v=0 a") (State.init "alice" none) "bob" (some "v=0 o1"))
      "bob" (some "v=0 o2")).connections.length = 1 ∧
    ((handleOffer (acceptAll "v=0 a")
      (handleOffer (acceptAll "v=0 a") (State.init "alice" none) "bob" (some "v=0 o1"))
      "bob" (some "v=0 o2")).calls.filter Call.isConstruct).length = 1 := by
  decide

/-- C10, amended: when `peerConnections` already holds a connection for the
peer, `handleOffer` constructs none: the table is the same after the call,
the heap has as many connections, of the same peers, none newly closed, and
every call the handler makes is made on the existing connection and is not a
construction. -/
theorem offer_reuses_connection (T : MediaTransport) (s : State) (p : String)
    (sdp : Option String) (h : Nat) (hp : mapGet s.peerConnections p = some h) :
    (handleOffer T s p sdp).peerConnections = s.peerConnections ∧
    (handleOffer T s p sdp).connections.length = s.connections.length ∧
    shape (handleOffer T s p sdp) = shape s ∧
    ∃ l, (handleOffer T s p sdp).calls = s.calls ++ l ∧
      ∀ c ∈ l, c.handle = h ∧ c.isConstruct = false := by
  have e1 : handleOffer T s p sdp = answerOffer T s h p sdp := by
    simp [handleOffer, hp]
  obtain ⟨_, _, _, _, h5, h6, l, hl, hP⟩ := answerOffer_steps T s h p sdp
  rw [e1]
  refine ⟨h5, ?_, h6, l, hl, fun c hc => ⟨(hP c hc).1, (hP c hc).2.2⟩⟩
  have := congrArg List.length h6
  simpa [shape] using this

/-- Instance of the amended C10: the second offer of "bob". -/
theorem offer_reuses_connection_witness :
    (handleOffer (acceptAll "v=0 a")
      (handleOffer (acceptAll "v=0 a") (State.init "alice" none) "bob" (some "v=0 o1"))
      "bob" (some "v=0 o2")).peerConnections
    = (handleOffer (acceptAll "v=0 a") (State.init "alice" none) "bob"
      (some "v=0 o1")).peerConnections :=
  (offer_reuses_connection (acceptAll "v=0 a")
    (handleOffer (acceptAll "v=0 a") (State.init "alice" none) "bob" (some "v=0 o1"))
    "bob" (some "v=0 o2") 0 (by decide)).1

/-! ## C6 -/

/-- C6. Delivering the same answer a second time changes neither
`peerConnections`, nor the heap of connections (so the remote description
recorded on each connection), nor `connectedPeers`. -/
theorem handleAnswer_idempotent (T : MediaTransport) (s : State) (p : String)
    (sdp : Option String) :
    (handleAnswer T (handleAnswer T s p sdp) p sdp).peerConnections
      = (handleAnswer T s p sdp).peerConnections ∧
    (handleAnswer T (handleAnswer T s p sdp) p sdp).connections
      = (handleAnswer T s p sdp).connections ∧
    (handleAnswer T (handleAnswer T s p sdp) p sdp).connections.map
        (fun c => c.remoteDescription)
      = (handleAnswer T s p sdp).connections.map (fun c => c.remoteDescription) ∧
    (handleAnswer T (handleAnswer T s p sdp) p sdp).connectedPeers
      = (handleAnswer T s p sdp).connectedPeers := by
  cases hp : mapGet s.peerConnections p with
  | none =>
    have e : handleAnswer T s p sdp = s := by simp [handleAnswer, hp]
    rw [e, e]
    exact ⟨rfl, rfl, rfl, rfl⟩
  | some h =>
    cases hc : s.connections[h]? with
    | none =>
      have e : handleAnswer T s p sdp = s := by
        simp [handleAnswer, hp, pcSetRemoteDescription, hc]
      rw [e, e]
      exact ⟨rfl, rfl, rfl, rfl⟩
    | some c =>
      have hlen : h < s.connections.length := by
        by_contra hn
        rw [List.getElem?_eq_none (Nat.le_of_not_lt hn)] at hc
        exact Option.noConfusion hc
      by_cases b1 : T.setRemoteDescription c ⟨SdpType.answer, sdp⟩ = true
      · have e : handleAnswer T s p sdp =
            { s with
              calls := s.calls ++ [Call.setRemoteDescription h ⟨SdpType.answer, sdp⟩],
              connections := s.connections.set h
                { c with remoteDescription := some ⟨SdpType.answer, sdp⟩ },
              connectedPeers := setAdd s.connectedPeers p } := by
          simp [handleAnswer, hp, pcSetRemoteDescription, hc, b1]
        rw [e]
        by_cases b2 : T.setRemoteDescription
            { c with remoteDescription := some ⟨SdpType.answer, sdp⟩ }
            ⟨SdpType.answer, sdp⟩ = true
        · simp [handleAnswer, hp, pcSetRemoteDescription, hlen, b2, setAdd_setAdd]
        · simp [handleAnswer, hp, pcSetRemoteDescription, hlen, b2]
      · have e : handleAnswer T s p sdp =
            { s with
              calls := s.calls ++ [Call.setRemoteDescription h ⟨SdpType.answer, sdp⟩] } := by
          simp [handleAnswer, hp, pcSetRemoteDescription, hc, b1]
        rw [e]
        simp [handleAnswer, hp, pcSetRemoteDescription, hc, b1]

/-! ## C5 -/

theorem pcSetRemoteDescription_connectedPeers (T : MediaTransport) (s : State) (h : Nat)
    (d : SessionDescription) :
    (pcSetRemoteDescription T s h d).1.connectedPeers = s.connectedPeers ∧
    (pcSetRemoteDescription T s h d).1.signals = s.signals := by
  unfold pcSetRemoteDescription
  split
  · exact ⟨rfl, rfl⟩
  · split <;> exact ⟨rfl, rfl⟩

theorem pcCreateAnswer_connectedPeers (T : MediaTransport) (s : State) (h : Nat) :
    (pcCreateAnswer T s h).1.connectedPeers = s.connectedPeers ∧
    (pcCreateAnswer T s h).1.signals = s.signals := by
  unfold pcCreateAnswer
  split <;> exact ⟨rfl, rfl⟩

theorem pcSetLocalDescription_connectedPeers (T : MediaTransport) (s : State) (h : Nat)
    (d : SessionDescription) :
    (pcSetLocalDescription T s h d).1.connectedPeers = s.connectedPeers ∧
    (pcSetLocalDescription T s h d).1.signals = s.signals := by
  unfold pcSetLocalDescription
  split
  · exact ⟨rfl, rfl⟩
  · split <;> exact ⟨rfl, rfl⟩

theorem pcAddIceCandidate_connectedPeers (T : MediaTransport) (s : State) (h : Nat)
    (candidate : Option String) :
    (pcAddIceCandidate T s h candidate).connectedPeers = s.connectedPeers ∧
    (pcAddIceCandidate T s h candidate).signals = s.signals := by
  unfold pcAddIceCandidate
  split
  · exact ⟨rfl, rfl⟩
  · split <;> exact ⟨rfl, rfl⟩

theorem pcClose_connectedPeers (s : State) (h : Nat) :
    (pcClose s h).connectedPeers = s.connectedPeers ∧ (pcClose s h).signals = s.signals ∧
    (pcClose s h).peerConnections = s.peerConnections := by
  unfold pcClose
  split <;> exact ⟨rfl, rfl, rfl⟩

theorem answerOffer_connectedPeers (T : MediaTransport) (s : State) (h : Nat) (p : String)
    (sdp : Option String) :
    (answerOffer T s h p sdp).connectedPeers = s.connectedPeers ∨
    (answerOffer T s h p sdp).connectedPeers = setAdd s.connectedPeers p := by
  have h1 := (pcSetRemoteDescription_connectedPeers T s h ⟨SdpType.offer, sdp⟩).1
  have h2 := (pcCreateAnswer_connectedPeers T
    (pcSetRemoteDescription T s h ⟨SdpType.offer, sdp⟩).1 h).1
  unfold answerOffer
  by_cases hr1 : (pcSetRemoteDescription T s h ⟨SdpType.offer, sdp⟩).2 = true
  · simp only [hr1, if_true]
    cases hr2 : (pcCreateAnswer T (pcSetRemoteDescription T s h ⟨SdpType.offer, sdp⟩).1 h).2 with
    | none => exact Or.inl (h2.trans h1)
    | some a =>
      have h3 := (pcSetLocalDescription_connectedPeers T
        (pcCreateAnswer T (pcSetRemoteDescription T s h ⟨SdpType.offer, sdp⟩).1 h).1 h
        ⟨SdpType.answer, some a⟩).1
      simp only []
      by_cases hr3 : (pcSetLocalDescription T
          (pcCreateAnswer T (pcSetRemoteDescription T s h ⟨SdpType.offer, sdp⟩).1 h).1 h
          ⟨SdpType.answer, some a⟩).2 = true
      · simp only [hr3, if_true]
        right
        simp only [sendSignal]
        rw [h3, h2, h1]
      · simp only [hr3]
        exact Or.inl (h3.trans (h2.trans h1))
  · simp only [hr1]
    exact Or.inl h1

theorem handleOffer_connectedPeers (T : MediaTransport) (s : State) (p : String)
    (sdp : Option String) :
    (handleOffer T s p sdp).connectedPeers = s.connectedPeers ∨
    (handleOffer T s p sdp).connectedPeers = setAdd s.connectedPeers p := by
  unfold handleOffer
  cases hp : mapGet s.peerConnections p with
  | some h => exact answerOffer_connectedPeers T s h p sdp
  | none =>
    exact answerOffer_connectedPeers T (createPeerConnection s p).1
      (createPeerConnection s p).2 p sdp

theorem handleAnswer_connectedPeers (T : MediaTransport) (s : State) (p : String)
    (sdp : Option String) :
    (handleAnswer T s p sdp).connectedPeers = s.connectedPeers ∨
    (handleAnswer T s p sdp).connectedPeers = setAdd s.connectedPeers p := by
  unfold handleAnswer
  cases hp : mapGet s.peerConnections p with
  | none => exact Or.inl rfl
  | some h =>
    have h1 := (pcSetRemoteDescription_connectedPeers T s h ⟨SdpType.answer, sdp⟩).1
    by_cases hr1 : (pcSetRemoteDescription T s h ⟨SdpType.answer, sdp⟩).2 = true
    · simp only [hr1, if_true]
      right
      rw [h1]
    · simp only [hr1]
      exact Or.inl h1

theorem handleCandidate_connectedPeers (T : MediaTransport) (s : State) (p : String)
    (data : Json) :
    (handleCandidate T s p data).connectedPeers = s.connectedPeers := by
  unfold handleCandidate
  cases hp : mapGet s.peerConnections p with
  | none => rfl
  | some h =>
    cases data with
    | null => rfl
    | value sdp cand =>
      simp only []
      split
      · exact (pcAddIceCandidate_connectedPeers T s h cand).1
      · rfl

theorem disconnectPeer_connectedPeers (s : State) (p : String) :
    (disconnectPeer s p).connectedPeers = setDelete s.connectedPeers p := by
  unfold disconnectPeer
  cases hp : mapGet s.peerConnections p with
  | none => rfl
  | some h =>
    simp only []
    rw [(pcClose_connectedPeers s h).1]

theorem mem_of_mem_setDelete (xs : List String) (x y : String) (h : y ∈ setDelete xs x) :
    y ∈ xs := by
  unfold setDelete at h
  exact (List.mem_filter.mp h).1

theorem onconnectionstatechange_connectedPeers (s : State) (h : Nat) (st : ConnectionState) :
    (onconnectionstatechange s h st).connectedPeers = s.connectedPeers ∨
    ∃ q, (onconnectionstatechange s h st).connectedPeers = setDelete s.connectedPeers q := by
  unfold onconnectionstatechange
  cases hc : s.connections[h]? with
  | none => exact Or.inl rfl
  | some c =>
    simp only []
    split
    · right
      exact ⟨c.peerId, by rw [disconnectPeer_connectedPeers]⟩
    · exact Or.inl rfl

theorem onicecandidate_connectedPeers (s : State) (h : Nat) (candidate : Option String) :
    (onicecandidate s h candidate).connectedPeers = s.connectedPeers := by
  unfold onicecandidate
  cases s.connections[h]? with
  | none => rfl
  | some c1 =>
    cases candidate with
    | none => rfl
    | some cand => rfl

/-- C5, refuted as stated: from the empty state of "alice" the offer of
"bob" alone puts "bob" in `connectedPeers`, right after the answer is sent,
while the connection of "bob" has had no connection-state change and is
still in the state `new`. -/
theorem membership_counterexample :
    (run (acceptAll "v=0 a") (State.init "alice" none)
      [Event.offer "bob" (some "v=0 o")]).connectedPeers = ["bob"] ∧
    (run (acceptAll "v=0 a") (State.init "alice" none)
      [Event.offer "bob" (some "v=0 o")]).connections.map (fun c => c.connectionState)
      = [ConnectionState.new] ∧
    (run (acceptAll "v=0 a") (State.init "alice" none)
      [Event.offer "bob" (some "v=0 o")]).signals.map (fun d => d.type) = ["answer"] := by
  decide

/-- C5, amended: a connection-state change to `connected` never changes
`connectedPeers`, and an event after which a peer is in `connectedPeers`
that was not in it before is an offer or an answer from that peer. -/
theorem membership_added_by_offer_or_answer (T : MediaTransport) (s : State) (ev : Event)
    (p : String) :
    (∀ h, (step T s (Event.connectionState h ConnectionState.connected)).connectedPeers
      = s.connectedPeers) ∧
    (p ∉ s.connectedPeers → p ∈ (step T s ev).connectedPeers →
      (∃ sdp, ev = Event.offer p sdp) ∨ (∃ sdp, ev = Event.answer p sdp)) := by
  constructor
  · intro h
    simp only [step, onconnectionstatechange]
    cases hc : s.connections[h]? with
    | none => rfl
    | some c => simp
  · intro h1 h2
    cases ev with
    | offer q sdp =>
      left
      refine ⟨sdp, ?_⟩
      rcases handleOffer_connectedPeers T s q sdp with e | e
      · simp only [step] at h2
        rw [e] at h2
        exact absurd h2 h1
      · simp only [step] at h2
        rw [e] at h2
        rcases (mem_setAdd _ _ _).1 h2 with h3 | h3
        · exact absurd h3 h1
        · rw [h3]
    | answer q sdp =>
      right
      refine ⟨sdp, ?_⟩
      rcases handleAnswer_connectedPeers T s q sdp with e | e
      · simp only [step] at h2
        rw [e] at h2
        exact absurd h2 h1
      · simp only [step] at h2
        rw [e] at h2
        rcases (mem_setAdd _ _ _).1 h2 with h3 | h3
        · exact absurd h3 h1
        · rw [h3]
    | candidate q data =>
      simp only [step] at h2
      rw [handleCandidate_connectedPeers] at h2
      exact absurd h2 h1
    | connectionState h st =>
      simp only [step] at h2
      rcases onconnectionstatechange_connectedPeers s h st with e | ⟨q, e⟩
      · rw [e] at h2
        exact absurd h2 h1
      · rw [e] at h2
        exact absurd (mem_of_mem_setDelete _ _ _ h2) h1
    | iceCandidate h c =>
      simp only [step] at h2
      rw [onicecandidate_connectedPeers] at h2
      exact absurd h2 h1
    | leaveRoom =>
      simp [step, leaveRoom] at h2
    | clock t =>
      simp only [step] at h2
      exact absurd h2 h1

/-- Instance of the amended C5: the event that put "bob" in
`connectedPeers` of "alice" is an offer or an answer of "bob". -/
theorem membership_added_by_offer_or_answer_witness :
    (∃ sdp, Event.offer "bob" (some "v=0 o") = Event.offer "bob" sdp) ∨
    (∃ sdp, Event.offer "bob" (some "v=0 o") = Event.answer "bob" sdp) :=
  (membership_added_by_offer_or_answer (acceptAll "v=0 a") (State.init "alice" none)
    (Event.offer "bob" (some "v=0 o")) "bob").2 (by decide) (by decide)

/-! ## C7 -/

theorem pcSetRemoteDescription_other (T : MediaTransport) (s : State) (h k : Nat)
    (d : SessionDescription) (hk : k ≠ h) :
    (pcSetRemoteDescription T s h d).1.connections[k]? = s.connections[k]? := by
  unfold pcSetRemoteDescription
  split
  · rfl
  · split
    · simp [List.getElem?_set, Ne.symm hk]
    · rfl

theorem pcCreateAnswer_other (T : MediaTransport) (s : State) (h k : Nat) :
    (pcCreateAnswer T s h).1.connections[k]? = s.connections[k]? := by
  unfold pcCreateAnswer
  split <;> rfl

theorem pcSetLocalDescription_other (T : MediaTransport) (s : State) (h k : Nat)
    (d : SessionDescription) (hk : k ≠ h) :
    (pcSetLocalDescription T s h d).1.connections[k]? = s.connections[k]? := by
  unfold pcSetLocalDescription
  split
  · rfl
  · split
    · simp [List.getElem?_set, Ne.symm hk]
    · rfl

theorem answerOffer_other (T : MediaTransport) (s : State) (h k : Nat) (p : String)
    (sdp : Option String) (hk : k ≠ h) :
    (answerOffer T s h p sdp).connections[k]? = s.connections[k]? := by
  have h1 := pcSetRemoteDescription_other T s h k ⟨SdpType.offer, sdp⟩ hk
  have h2 := pcCreateAnswer_other T (pcSetRemoteDescription T s h ⟨SdpType.offer, sdp⟩).1 h k
  unfold answerOffer
  by_cases hr1 : (pcSetRemoteDescription T s h ⟨SdpType.offer, sdp⟩).2 = true
  · simp only [hr1, if_true]
    cases hr2 : (pcCreateAnswer T (pcSetRemoteDescription T s h ⟨SdpType.offer, sdp⟩).1 h).2 with
    | none => exact h2.trans h1
    | some a =>
      have h3 := pcSetLocalDescription_other T
        (pcCreateAnswer T (pcSetRemoteDescription T s h ⟨SdpType.offer, sdp⟩).1 h).1 h k
        ⟨SdpType.answer, some a⟩ hk
      simp only []
      by_cases hr3 : (pcSetLocalDescription T
          (pcCreateAnswer T (pcSetRemoteDescription T s h ⟨SdpType.offer, sdp⟩).1 h).1 h
          ⟨SdpType.answer, some a⟩).2 = true
      · simp only [hr3, if_true, sendSignal]
        exact h3.trans (h2.trans h1)
      · simp only [hr3]
        exact h3.trans (h2.trans h1)
  · simp only [hr1]
    exact h1

theorem pcClose_length (s : State) (h : Nat) :
    (pcClose s h).connections.length = s.connections.length := by
  unfold pcClose
  split
  · rfl
  · simp

theorem disconnectPeer_length (s : State) (p : String) :
    (disconnectPeer s p).connections.length = s.connections.length := by
  unfold disconnectPeer
  cases hp : mapGet s.peerConnections p with
  | none => rfl
  | some h => exact pcClose_length s h

theorem mapDelete_of_none (m : List (String × Nat)) (key : String)
    (h : mapGet m key = none) : mapDelete m key = m := by
  induction m with
  | nil => rfl
  | cons e rest ih =>
    obtain ⟨k1, v1⟩ := e
    by_cases hk : k1 = key
    · simp [mapGet, hk] at h
    · simp only [mapGet, hk, if_false] at h
      have h2 := ih h
      unfold mapDelete at h2 ⊢
      rw [List.filter_cons_of_pos (by simpa using hk), h2]

theorem disconnectPeer_peerConnections (s : State) (p : String) :
    (disconnectPeer s p).peerConnections = mapDelete s.peerConnections p := by
  unfold disconnectPeer
  cases hp : mapGet s.peerConnections p with
  | none => exact (mapDelete_of_none _ _ hp).symm
  | some h => rfl

theorem disconnectPeer_closed (s : State) (p : String) (h : Nat)
    (hp : mapGet s.peerConnections p = some h) (hlen : h < s.connections.length) :
    ((disconnectPeer s p).connections[h]?).map (fun c => c.closed) = some true := by
  obtain ⟨c, hc⟩ : ∃ c, s.connections[h]? = some c :=
    ⟨s.connections[h], List.getElem?_eq_getElem hlen⟩
  simp [disconnectPeer, hp, pcClose, hc, hlen]

/-- C7. After `disconnectPeer` the peer is in neither table; an answer or a
candidate from it then changes nothing, the call log included; an offer from
it is handled as for an unknown peer, on the connection constructed for it,
whose handle is new: the closed connection is not the entry of the peer, no
call is made on it and its record stays as `disconnectPeer` left it. -/
theorem disconnectPeer_teardown (T : MediaTransport) (s : State) (p : String) :
    mapGet (disconnectPeer s p).peerConnections p = none ∧
    p ∉ (disconnectPeer s p).connectedPeers ∧
    (∀ sdp, handleAnswer T (disconnectPeer s p) p sdp = disconnectPeer s p) ∧
    (∀ data, handleCandidate T (disconnectPeer s p) p data = disconnectPeer s p) ∧
    (∀ sdp, handleOffer T (disconnectPeer s p) p sdp =
      answerOffer T (createPeerConnection (disconnectPeer s p) p).1
        (disconnectPeer s p).connections.length p sdp) ∧
    (∀ sdp, mapGet (handleOffer T (disconnectPeer s p) p sdp).peerConnections p
      = some (disconnectPeer s p).connections.length) ∧
    (∀ sdp h, mapGet s.peerConnections p = some h → h < s.connections.length →
      ((disconnectPeer s p).connections[h]?).map (fun c => c.closed) = some true ∧
      (handleOffer T (disconnectPeer s p) p sdp).connections[h]?
        = (disconnectPeer s p).connections[h]? ∧
      mapGet (handleOffer T (disconnectPeer s p) p sdp).peerConnections p ≠ some h ∧
      ∃ l, (handleOffer T (disconnectPeer s p) p sdp).calls = (disconnectPeer s p).calls ++ l ∧
        ∀ c ∈ l, c.handle ≠ h) := by
  have hnone : mapGet (disconnectPeer s p).peerConnections p = none := by
    rw [disconnectPeer_peerConnections]
    exact mapGet_mapDelete_self _ _
  have hoffer : ∀ sdp, handleOffer T (disconnectPeer s p) p sdp =
      answerOffer T (createPeerConnection (disconnectPeer s p) p).1
        (disconnectPeer s p).connections.length p sdp := by
    intro sdp
    simp [handleOffer, hnone, createPeerConnection]
  have hentry : ∀ sdp, mapGet (handleOffer T (disconnectPeer s p) p sdp).peerConnections p
      = some (disconnectPeer s p).connections.length := by
    intro sdp
    rw [handleOffer_peerConnections, hnone]
    simp [mapGet_append, hnone]
  refine ⟨hnone, ?_, ?_, ?_, hoffer, hentry, ?_⟩
  · rw [disconnectPeer_connectedPeers]
    exact not_mem_setDelete _ _
  · intro sdp
    simp [handleAnswer, hnone]
  · intro data
    simp [handleCandidate, hnone]
  · intro sdp h hp hlen
    have hlen2 : h < (disconnectPeer s p).connections.length := by
      rw [disconnectPeer_length]
      exact hlen
    refine ⟨disconnectPeer_closed s p h hp hlen, ?_, ?_, ?_⟩
    · rw [hoffer, answerOffer_other _ _ _ _ _ _ (Nat.ne_of_lt hlen2)]
      simp [createPeerConnection, List.getElem?_append_left hlen2]
    · rw [hentry]
      intro e
      exact Nat.ne_of_lt hlen2 (Option.some.inj e).symm
    · obtain ⟨l, hl, hP⟩ := handleOffer_calls T (disconnectPeer s p) p sdp
      refine ⟨l, hl, fun c hc => ?_⟩
      have := (hP c hc).1
      rw [hnone] at this
      simp only [Option.getD_none] at this
      rw [this]
      exact Nat.ne_of_gt hlen2

/-- Instance of C7: "alice" answered the offer of "bob" on the connection 0
and then disconnects "bob"; a further offer of "bob" is not made on 0. -/
theorem disconnectPeer_teardown_witness :
    mapGet (handleOffer (acceptAll "v=0 a")
      (disconnectPeer
        (handleOffer (acceptAll "v=0 a") (State.init "alice" none) "bob" (some "v=0 o1")) "bob")
      "bob" (some "v=0 o2")).peerConnections "bob" ≠ some 0 :=
  ((disconnectPeer_teardown (acceptAll "v=0 a")
    (handleOffer (acceptAll "v=0 a") (State.init "alice" none) "bob" (some "v=0 o1")) "bob").2.2.2.2.2.2
    (some "v=0 o2") 0 (by decide) (by decide)).2.2.1

/-! ## C9 -/

/-- C9, the code at the failing batch: an `offer` of "mallory" whose payload
is not JSON, followed by a well-formed `offer` of "bob".  The exception of
`JSON.parse` leaves the callback and the offer of "bob" is never dispatched,
whereas the batch without the malformed document is dispatched and answers
"bob". -/
theorem malformed_payload_aborts_batch :
    onSnapshot (acceptAll "v=0 a") (State.init "alice" none)
      [{ type := "added",
         doc := { type := "offer", sender := "mallory", receiver := "alice", room := "general",
                  timestamp := 0, payload := none, ttl := 60000 } },
       { type := "added",
         doc := { type := "offer", sender := "bob", receiver := "alice", room := "general",
                  timestamp := 0, payload := some (Json.value (some "v=0 o") none),
                  ttl := 60000 } }]
      = ⟨State.init "alice" none, true⟩ ∧
    (onSnapshot (acceptAll "v=0 a") (State.init "alice" none)
      [{ type := "added",
         doc := { type := "offer", sender := "bob", receiver := "alice", room := "general",
                  timestamp := 0, payload := some (Json.value (some "v=0 o") none),
                  ttl := 60000 } }]).thrown = false ∧
    (onSnapshot (acceptAll "v=0 a") (State.init "alice" none)
      [{ type := "added",
         doc := { type := "offer", sender := "bob", receiver := "alice", room := "general",
                  timestamp := 0, payload := some (Json.value (some "v=0 o") none),
                  ttl := 60000 } }]).state.peerConnections = [("bob", 0)] := by
  decide

/-! ## C8 -/

theorem Consistent.of_eq {s t : State} (h1 : t.peerConnections = s.peerConnections)
    (h2 : shape t = shape s) (hs : Consistent s) : Consistent t := by
  unfold Consistent at hs ⊢
  rw [h1, h2]
  exact hs

theorem Consistent.steps {P : Call → Prop} {s t : State} (h : Steps P s t)
    (hs : Consistent s) : Consistent t :=
  Consistent.of_eq h.2.2.2.2.1 h.2.2.2.2.2.1 hs

theorem shape_getElem? (s : State) (h : Nat) :
    (shape s)[h]? = (s.connections[h]?).map (fun c => (c.peerId, c.closed)) := by
  simp [shape]

theorem mapGet_mem (m : List (String × Nat)) (q : String) (k : Nat)
    (h : mapGet m q = some k) : (q, k) ∈ m := by
  induction m with
  | nil => simp [mapGet] at h
  | cons e rest ih =>
    obtain ⟨k1, v1⟩ := e
    by_cases hk : k1 = q
    · simp only [mapGet, hk, if_true] at h
      have hv : v1 = k := Option.some.inj h
      rw [hk, hv]
      exact List.mem_cons_self _ _
    · simp only [mapGet, hk, if_false] at h
      exact List.mem_cons_of_mem _ (ih h)

theorem createPeerConnection_consistent (s : State) (p : String)
    (hp : mapGet s.peerConnections p = none) (hs : Consistent s) :
    Consistent (createPeerConnection s p).1 := by
  obtain ⟨_, h2, h3, _⟩ := createPeerConnection_fresh s p hp
  have hlen : (shape s).length = s.connections.length := by simp [shape]
  obtain ⟨i1, i2⟩ := hs
  unfold Consistent
  rw [h2, h3]
  constructor
  · intro q h hq
    rw [mapGet_append] at hq
    cases e : mapGet s.peerConnections q with
    | some w =>
      rw [e] at hq
      have hw : w = h := Option.some.inj hq
      subst hw
      have hsh := i1 q w e
      have hlt : w < (shape s).length := by
        by_contra hn
        rw [List.getElem?_eq_none (Nat.le_of_not_lt hn)] at hsh
        exact Option.noConfusion hsh
      rw [List.getElem?_append_left hlt]
      exact hsh
    | none =>
      rw [e] at hq
      by_cases hpq : p = q
      · simp only [hpq, if_true] at hq
        have hw : s.connections.length = h := Option.some.inj hq
        rw [← hw, ← hlen, ← hpq]
        simp
      · simp [hpq] at hq
  · intro h q hsh
    by_cases hlt : h < (shape s).length
    · rw [List.getElem?_append_left hlt] at hsh
      have := i2 h q hsh
      rw [mapGet_append, this]
    · have hge : (shape s).length ≤ h := Nat.le_of_not_lt hlt
      rw [List.getElem?_append_right hge] at hsh
      have h0 : h - (shape s).length = 0 := by
        by_contra hn
        have : 1 ≤ h - (shape s).length := Nat.one_le_iff_ne_zero.mpr hn
        rw [List.getElem?_eq_none (by simpa using this)] at hsh
        exact Option.noConfusion hsh
      rw [h0] at hsh
      simp only [List.getElem?_cons_zero, Option.some.injEq, Prod.mk.injEq] at hsh
      have hq : q = p := hsh.1.symm
      have hh : h = s.connections.length := by omega
      rw [hq, hh, mapGet_append, hp]
      simp

theorem handleOffer_consistent (T : MediaTransport) (s : State) (p : String)
    (sdp : Option String) (hs : Consistent s) : Consistent (handleOffer T s p sdp) := by
  unfold handleOffer
  cases hp : mapGet s.peerConnections p with
  | some h => exact Consistent.steps (answerOffer_steps T s h p sdp) hs
  | none =>
    exact Consistent.steps
      (answerOffer_steps T (createPeerConnection s p).1 (createPeerConnection s p).2 p sdp)
      (createPeerConnection_consistent s p hp hs)

theorem handleAnswer_consistent (T : MediaTransport) (s : State) (p : String)
    (sdp : Option String) (hs : Consistent s) : Consistent (handleAnswer T s p sdp) := by
  unfold handleAnswer
  cases hp : mapGet s.peerConnections p with
  | none => exact hs
  | some h =>
    have h1 := Consistent.steps (pcSetRemoteDescription_steps T s h ⟨SdpType.answer, sdp⟩) hs
    simp only []
    split
    · exact Consistent.of_eq rfl rfl h1
    · exact h1

theorem handleCandidate_consistent (T : MediaTransport) (s : State) (p : String)
    (data : Json) (hs : Consistent s) : Consistent (handleCandidate T s p data) := by
  unfold handleCandidate
  cases hp : mapGet s.peerConnections p with
  | none => exact hs
  | some h =>
    cases data with
    | null => exact hs
    | value sdp cand =>
      simp only []
      split
      · exact Consistent.steps (pcAddIceCandidate_steps T s h cand) hs
      · exact hs

theorem onicecandidate_consistent (s : State) (h : Nat) (candidate : Option String)
    (hs : Consistent s) : Consistent (onicecandidate s h candidate) := by
  unfold onicecandidate
  cases s.connections[h]? with
  | none => exact hs
  | some c1 =>
    cases candidate with
    | none => exact hs
    | some cand => exact Consistent.of_eq rfl rfl hs

theorem pcClose_shape_open (s : State) (h k : Nat) (q : String)
    (hk : (shape (pcClose s h))[k]? = some (q, false)) :
    (shape s)[k]? = some (q, false) ∧ k ≠ h := by
  unfold pcClose at hk
  cases hc : s.connections[h]? with
  | none =>
    rw [hc] at hk
    refine ⟨hk, ?_⟩
    intro e
    subst e
    rw [shape_getElem?, hc] at hk
    exact Option.noConfusion hk
  | some c =>
    rw [hc] at hk
    have hlen : h < s.connections.length := by
      by_contra hn
      rw [List.getElem?_eq_none (Nat.le_of_not_lt hn)] at hc
      exact Option.noConfusion hc
    by_cases e : k = h
    · subst e
      simp [shape, hlen] at hk
    · refine ⟨?_, e⟩
      simpa [shape, List.getElem?_set, Ne.symm e] using hk

theorem pcClose_shape_other (s : State) (h k : Nat) (hk : k ≠ h) :
    (shape (pcClose s h))[k]? = (shape s)[k]? := by
  unfold pcClose
  cases hc : s.connections[h]? with
  | none => rfl
  | some c => simp [shape, List.getElem?_set, Ne.symm hk]

theorem disconnectPeer_consistent (s : State) (p : String) (hs : Consistent s) :
    Consistent (disconnectPeer s p) := by
  obtain ⟨i1, i2⟩ := hs
  cases hp : mapGet s.peerConnections p with
  | none =>
    have e : disconnectPeer s p = { s with connectedPeers := setDelete s.connectedPeers p } := by
      simp [disconnectPeer, hp]
    rw [e]
    exact Consistent.of_eq rfl rfl ⟨i1, i2⟩
  | some h =>
    have e : disconnectPeer s p =
        { pcClose s h with
          peerConnections := mapDelete s.peerConnections p,
          connectedPeers := setDelete (pcClose s h).connectedPeers p } := by
      simp [disconnectPeer, hp]
    have hsh : shape (disconnectPeer s p) = shape (pcClose s h) := by
      rw [e]
      rfl
    have htab : (disconnectPeer s p).peerConnections = mapDelete s.peerConnections p := by
      rw [e]
    unfold Consistent
    rw [hsh, htab]
    constructor
    · intro q k hq
      have hqp : q ≠ p := by
        intro e2
        rw [e2, mapGet_mapDelete_self] at hq
        exact Option.noConfusion hq
      rw [mapGet_mapDelete_ne _ _ _ hqp] at hq
      have hkh : k ≠ h := by
        intro e2
        subst e2
        have a := i1 q k hq
        have b := i1 p k hp
        rw [a] at b
        exact hqp (Prod.mk.inj (Option.some.inj b)).1
      rw [pcClose_shape_other s h k hkh]
      exact i1 q k hq
    · intro k q hk
      obtain ⟨hk1, hk2⟩ := pcClose_shape_open s h k q hk
      have hq := i2 k q hk1
      have hqp : q ≠ p := by
        intro e2
        rw [e2, hp] at hq
        exact hk2 (Option.some.inj hq).symm
      rw [mapGet_mapDelete_ne _ _ _ hqp]
      exact hq

theorem onconnectionstatechange_consistent (s : State) (h : Nat) (st : ConnectionState)
    (hs : Consistent s) : Consistent (onconnectionstatechange s h st) := by
  unfold onconnectionstatechange
  cases hc : s.connections[h]? with
  | none => exact hs
  | some c =>
    have hshape : shape
        { s with connections := s.connections.set h { c with connectionState := st } }
        = shape s :=
      map_set_same (fun (c : Connection) => (c.peerId, c.closed)) s.connections h c
        { c with connectionState := st } hc rfl
    have h1 : Consistent
        { s with connections := s.connections.set h { c with connectionState := st } } :=
      @Consistent.of_eq s _ rfl hshape hs
    simp only []
    split
    · exact disconnectPeer_consistent _ _ h1
    · exact h1

theorem closeAll_shape_open (m : List (String × Nat)) (s : State) (k : Nat) (q : String)
    (hk : (shape (closeAll s m))[k]? = some (q, false)) :
    (shape s)[k]? = some (q, false) ∧ ∀ r, (r, k) ∉ m := by
  induction m generalizing s with
  | nil =>
    exact ⟨hk, fun r hr => by simp at hr⟩
  | cons e rest ih =>
    obtain ⟨r1, h1⟩ := e
    simp only [closeAll] at hk
    obtain ⟨a, b⟩ := ih (pcClose s h1) hk
    obtain ⟨c, d⟩ := pcClose_shape_open s h1 k q a
    refine ⟨c, fun r hr => ?_⟩
    rcases List.mem_cons.mp hr with hr1 | hr1
    · exact d (Prod.mk.inj hr1).2
    · exact b r hr1

theorem leaveRoom_consistent (s : State) (hs : Consistent s) : Consistent (leaveRoom s) := by
  obtain ⟨_, i2⟩ := hs
  constructor
  · intro q k hq
    simp [leaveRoom, mapGet] at hq
  · intro k q hk
    have hk2 : (shape (closeAll { s with unsubscribers := 0 } s.peerConnections))[k]?
        = some (q, false) := hk
    obtain ⟨a, b⟩ := closeAll_shape_open _ _ k q hk2
    exact absurd (mapGet_mem _ _ _ (i2 k q a)) (b q)

theorem step_consistent (T : MediaTransport) (s : State) (ev : Event) (hs : Consistent s) :
    Consistent (step T s ev) := by
  cases ev with
  | offer q sdp => exact handleOffer_consistent T s q sdp hs
  | answer q sdp => exact handleAnswer_consistent T s q sdp hs
  | candidate q data => exact handleCandidate_consistent T s q data hs
  | connectionState h st => exact onconnectionstatechange_consistent s h st hs
  | iceCandidate h c => exact onicecandidate_consistent s h c hs
  | leaveRoom => exact leaveRoom_consistent s hs
  | clock t => exact Consistent.of_eq rfl rfl hs

theorem run_consistent (T : MediaTransport) (evs : List Event) (s : State)
    (hs : Consistent s) : Consistent (run T s evs) := by
  induction evs generalizing s with
  | nil => exact hs
  | cons ev rest ih => exact ih (step T s ev) (step_consistent T s ev hs)

theorem init_consistent (u : String) (ls : Option (List String)) :
    Consistent (State.init u ls) := by
  constructor
  · intro q k hq
    simp [State.init, mapGet] at hq
  · intro k q hk
    simp [State.init, shape] at hk

theorem Consistent.noDangling {s : State} (hs : Consistent s) : NoDangling s := by
  intro h c hc
  cases hcl : c.closed with
  | true => exact Or.inl rfl
  | false =>
    right
    refine ⟨rfl, hs.2 h c.peerId ?_⟩
    rw [shape_getElem?, hc]
    simp [hcl]

theorem failed_callback (s : State) (p : String) (h : Nat) (hs : Consistent s)
    (hp : mapGet s.peerConnections p = some h) :
    mapGet (onconnectionstatechange s h ConnectionState.failed).peerConnections p = none ∧
    ((onconnectionstatechange s h ConnectionState.failed).connections[h]?).map
      (fun c => c.closed) = some true ∧
    p ∉ (onconnectionstatechange s h ConnectionState.failed).connectedPeers ∧
    (onconnectionstatechange s h ConnectionState.failed).signals = s.signals := by
  have hsh := hs.1 p h hp
  rw [shape_getElem?] at hsh
  cases hc : s.connections[h]? with
  | none =>
    rw [hc] at hsh
    exact Option.noConfusion hsh
  | some c =>
    rw [hc] at hsh
    have hpc : c.peerId = p := (Prod.mk.inj (Option.some.inj hsh)).1
    have hlen : h < s.connections.length := by
      by_contra hn
      rw [List.getElem?_eq_none (Nat.le_of_not_lt hn)] at hc
      exact Option.noConfusion hc
    have e : onconnectionstatechange s h ConnectionState.failed =
        disconnectPeer
          { s with connections :=
              s.connections.set h { c with connectionState := ConnectionState.failed } } p := by
      simp [onconnectionstatechange, hc, hpc]
    rw [e]
    refine ⟨?_, ?_, ?_, ?_⟩
    · rw [disconnectPeer_peerConnections]
      exact mapGet_mapDelete_self _ _
    · exact disconnectPeer_closed _ p h hp (by simpa using hlen)
    · rw [disconnectPeer_connectedPeers]
      exact not_mem_setDelete _ _
    · simp [disconnectPeer, hp, (pcClose_connectedPeers _ h).2.1]

/-- C8. After every sequence of events from the empty state, every
connection of the heap is closed or is the open entry of its peer in
`peerConnections`; and a `failed` callback of the connection that is the
entry of a peer removes the entry, closes the connection, removes the peer
from `connectedPeers` and sends no signal. -/
theorem no_dangling_connections (T : MediaTransport) (u : String)
    (ls : Option (List String)) (evs : List Event) :
    NoDangling (run T (State.init u ls) evs) ∧
    ∀ p h, mapGet (run T (State.init u ls) evs).peerConnections p = some h →
      mapGet (onconnectionstatechange (run T (State.init u ls) evs) h
        ConnectionState.failed).peerConnections p = none ∧
      ((onconnectionstatechange (run T (State.init u ls) evs) h
        ConnectionState.failed).connections[h]?).map (fun c => c.closed) = some true ∧
      p ∉ (onconnectionstatechange (run T (State.init u ls) evs) h
        ConnectionState.failed).connectedPeers ∧
      (onconnectionstatechange (run T (State.init u ls) evs) h
        ConnectionState.failed).signals = (run T (State.init u ls) evs).signals := by
  have hs := run_consistent T evs (State.init u ls) (init_consistent u ls)
  exact ⟨hs.noDangling, fun p h hp => failed_callback _ p h hs hp⟩

/-- Instance of C8: "alice" answered "bob" on the connection 0, which then
fails. -/
theorem no_dangling_connections_witness :
    "bob" ∉ (onconnectionstatechange
      (run (acceptAll "v=0 a") (State.init "alice" none) [Event.offer "bob" (some "v=0 o")]) 0
      ConnectionState.failed).connectedPeers :=
  ((no_dangling_connections (acceptAll "v=0 a") "alice" none
    [Event.offer "bob" (some "v=0 o")]).2 "bob" 0 (by decide)).2.2.1

end VoiceChat
